import Mathlib

/-!
Verification of the meli mail client core against its specification.

The definitions below are shallow embeddings of the Rust source:
* `melib/src/mailbox/backends/maildir.rs` (MaildirOp: fetch_headers,
  fetch_body, fetch_flags, set_flag),
* `melib/src/backends/imap/connection.rs` (ImapStream / ImapConnection /
  ImapBlockingConnection),
* `melib/src/sieve.rs` (the sieve string and number parsers),
* `melib/src/email/attachment_types.rs` (ContentType::make_boundary).

Byte strings are modelled as `List Char` (all inputs of interest are ASCII,
so bytes and chars coincide); fallible operations return `Option`/`Except`;
a Rust `panic!` is modelled by a dedicated `none`/`panicked` result of the
enclosing function.  All definitions follow the source; the few helpers the
source pulls from files outside the reviewed tree are modelled from the
spec and say so in their doc comments.
-/

/-! ## Maildir flags (`maildir.rs`) -/

/-- The `Flag` bitset from `melib`: one field per bitflag used by the
Maildir backend. -/
structure MFlag where
  passed : Bool := false
  replied : Bool := false
  seen : Bool := false
  trashed : Bool := false
  draft : Bool := false
  flagged : Bool := false
deriving DecidableEq, Repr

instance : Inhabited MFlag := ⟨{}⟩

/-- `Flag::toggle` from the `bitflags` crate: xor of the two bitsets. -/
def MFlag.toggle (a b : MFlag) : MFlag where
  passed := xor a.passed b.passed
  replied := xor a.replied b.replied
  seen := xor a.seen b.seen
  trashed := xor a.trashed b.trashed
  draft := xor a.draft b.draft
  flagged := xor a.flagged b.flagged

/-- The reversed-filename scan inside `MaildirOp::fetch_flags`: walk the
characters (already reversed), stop at the first `','`, OR in the flag for
each of the six letters, and `panic!()` (modelled as `none`) on any other
character. -/
def scanRevFlags : List Char → MFlag → Option MFlag
  | [], fl => some fl
  | c :: rest, fl =>
    if c = ',' then some fl
    else if c = 'D' then scanRevFlags rest { fl with draft := true }
    else if c = 'F' then scanRevFlags rest { fl with flagged := true }
    else if c = 'P' then scanRevFlags rest { fl with passed := true }
    else if c = 'R' then scanRevFlags rest { fl with replied := true }
    else if c = 'S' then scanRevFlags rest { fl with seen := true }
    else if c = 'T' then scanRevFlags rest { fl with trashed := true }
    else none

/-- `MaildirOp::fetch_flags` on the file name of the operation's path:
if the name does not contain `":2,"` return the empty flag set, otherwise
scan the name from the end towards the start (`filename.chars().rev()`),
stopping at the first comma.  `none` models the `panic!()` arm. -/
def fetchFlags (filename : List Char) : Option MFlag :=
  if [':', '2', ','] <:+: filename then scanRevFlags filename.reverse {}
  else some {}

/-- `file_name()` of a path: the component after the last `'/'`. -/
def fileNameOf (path : List Char) : List Char :=
  (path.reverse.takeWhile (· ≠ '/')).reverse

/-- The flag-suffix encoding performed by `MaildirOp::set_flag`: the letters
`D`, `F`, `P`, `R`, `S`, `T` appended in that (sorted) order, one for each
flag present. -/
def encodeFlags (fl : MFlag) : List Char :=
  (if fl.draft then ['D'] else []) ++
  (if fl.flagged then ['F'] else []) ++
  (if fl.passed then ['P'] else []) ++
  (if fl.replied then ['R'] else []) ++
  (if fl.seen then ['S'] else []) ++
  (if fl.trashed then ['T'] else [])

/-- `str::rfind` for a pattern: the largest index at which `pat` occurs in
`l`, if any. -/
def rfindPat (l pat : List Char) : Option Nat :=
  (List.range (l.length + 1)).reverse.find? fun i => pat.isPrefixOf (l.drop i)

/-- The `RefreshEvent` struct of this source tree: a folder path and its
hash.  (There is no `Rename` variant; this is the only event type the
Maildir backend can emit, and only its watcher thread emits it.) -/
structure RefreshEventM where
  folder : List Char
  hash : Nat
deriving DecidableEq, Repr

/-- Result of `MaildirOp::set_flag`. -/
inductive SetFlagResult
  /-- the `panic!()` inside `fetch_flags` -/
  | panicked
  /-- the `MeliError` returned when the path has no `":2,"` -/
  | error
  /-- success: the new file path produced by the rename, together with the
  list of refresh events emitted by the function (the filesystem rename
  itself is modelled as succeeding) -/
  | renamed (newName : List Char) (events : List RefreshEventM)
deriving DecidableEq, Repr

/-- `MaildirOp::set_flag`: truncate the path after the last `":2,"`, toggle
`f` in the flags read back from the file name, re-append the remaining
flags as sorted letters, and rename the file.  No refresh event is emitted
anywhere in the function; it only replaces the envelope's operation token
with one holding the new path. -/
def setFlag (path : List Char) (f : MFlag) : SetFlagResult :=
  match rfindPat path [':', '2', ','] with
  | none => .error
  | some i =>
    let idx := i + 3
    match fetchFlags (fileNameOf path) with
    | none => .panicked
    | some flags =>
      let flags := flags.toggle f
      .renamed (path.take idx ++ encodeFlags flags) []

/-- The events a `set_flag` call emits, by result case. -/
def setFlagEvents : SetFlagResult → List RefreshEventM
  | .renamed _ evs => evs
  | _ => []

/-! ## Maildir fetch (`maildir.rs` + header scan modelled from the spec) -/

/-- Modelled from the spec: `parser::headers_raw` (in
`melib/src/mailbox/email/parser.rs`, which is not part of the sources under
review) "scans for the first empty line (`\r\n\r\n` or `\n\n`) and returns
the prefix".  This helper returns the position of the first empty line and
the length of its terminator. -/
def findHeaderEnd : List Char → Option (Nat × Nat)
  | [] => none
  | c :: rest =>
    if ['\r', '\n', '\r', '\n'].isPrefixOf (c :: rest) then some (0, 4)
    else if ['\n', '\n'].isPrefixOf (c :: rest) then some (0, 2)
    else (findHeaderEnd rest).map fun p => (p.1 + 1, p.2)

/-- Modelled from the spec: `headers_raw` returns the header prefix of the
message, i.e. everything before the first empty line. -/
def headersRaw (raw : List Char) : Option (List Char) :=
  (findHeaderEnd raw).map fun p => raw.take p.1

/-- `MaildirOp::fetch_headers`: `parser::headers_raw(raw)`. -/
def fetchHeaders (raw : List Char) : Option (List Char) :=
  headersRaw raw

/-- `MaildirOp::fetch_body` as written in the source: its body is the same
two lines as `fetch_headers` — it also returns `parser::headers_raw(raw)`. -/
def fetchBody (raw : List Char) : Option (List Char) :=
  headersRaw raw

/-- What the spec requires of `fetch_body`: the bytes after the header
terminator (the first empty line). -/
def specFetchBody (raw : List Char) : Option (List Char) :=
  (findHeaderEnd raw).map fun p => raw.drop (p.1 + p.2)

/-! ## IMAP connection (`connection.rs`) -/

/-- `ImapStream`: the only state relevant to tagging is the numeric
command counter `cmd_id`. -/
structure ImapStreamS where
  cmd_id : Nat
deriving DecidableEq, Repr

/-- `ImapStream::send_command`: writes `M<cmd_id> SP <command> CRLF` on the
wire, returns the tag id it used, and increments `cmd_id`.  The third
component is the wire trace of this call: one tagged command. -/
def ImapStreamS.sendCommand (s : ImapStreamS) (cmd : String) :
    Nat × ImapStreamS × List (Nat × String) :=
  (s.cmd_id, ⟨s.cmd_id + 1⟩, [(s.cmd_id, cmd)])

/-- The successful path of `ImapStream::new_connection`, as a wire trace:
it writes `format!("M{} STARTTLS\r\n", cmd_id)` with the local `cmd_id`
still `0` and WITHOUT going through `send_command` (so `cmd_id` is not
incremented), completes the TLS handshake, builds the stream with
`cmd_id = 0`, and then sends `LOGIN "<user>" "<pass>"` via `send_command`. -/
def imapNewConnectionTrace (user pass : String) :
    List (Nat × String) × ImapStreamS :=
  let cmd_id := 0
  let raw := [(cmd_id, "STARTTLS")]
  let s : ImapStreamS := ⟨cmd_id⟩
  let r := s.sendCommand ("LOGIN \"" ++ user ++ "\" \"" ++ pass ++ "\"")
  (raw ++ r.2.2, r.2.1)

/-- `ImapConnection::send_command` invoked while `self.stream` is an error
(the freshly constructed connection starts as `Err("Offline")`), with the
reconnect succeeding: it runs `ImapStream::new_connection` and then sends
the command once on the new stream.  Returns the complete wire trace and
the tag id handed back to the caller. -/
def imapReconnectSendCommand (user pass cmd : String) :
    List (Nat × String) × Nat :=
  let c := imapNewConnectionTrace user pass
  let r := c.2.sendCommand cmd
  (c.1 ++ r.2.2, r.1)

/-- Scenario S4 of the spec: a disconnected connection receiving
`send_command("NOOP")`. -/
def scenarioS4 : List (Nat × String) × Nat :=
  imapReconnectSendCommand "user" "pass" "NOOP"

/-- Iterated `send_command` on one stream, collecting the wire trace. -/
def sendAll (s : ImapStreamS) : List String → ImapStreamS × List (Nat × String)
  | [] => (s, [])
  | c :: cs =>
    let r := s.sendCommand c
    let rest := sendAll r.2.1 cs
    (rest.1, r.2.2 ++ rest.2)

/-- `ImapConnection`: the stream held as a success-or-error value plus the
capability set. -/
structure ImapConnectionM (ε : Type) where
  stream : Except ε ImapStreamS
  capabilities : List String
deriving Repr

/-- The body shared by all seven `ImapConnection` methods (`send_command`,
`send_literal`, `send_raw`, `read_response`, `read_lines`,
`wait_for_continuation_request`, `set_nonblocking`): if the held stream is
`Ok`, run the corresponding `ImapStream` operation on it; otherwise run
`ImapStream::new_connection` (its outcome is the `newConn` argument),
propagate its failure with `?`, or run the operation once on the fresh
stream, committing stream and capabilities only if the operation succeeds.
Returns (result, new connection state, number of connection attempts made,
number of times the operation ran). -/
def opWithReconnect {ε α : Type} (conn : ImapConnectionM ε)
    (newConn : Except ε (List String × ImapStreamS))
    (op : ImapStreamS → Except ε α × ImapStreamS) :
    Except ε α × ImapConnectionM ε × Nat × Nat :=
  match conn.stream with
  | .ok s =>
    let r := op s
    (r.1, { conn with stream := .ok r.2 }, 0, 1)
  | .error _ =>
    match newConn with
    | .error e => (.error e, conn, 1, 0)
    | .ok (caps, s) =>
      let r := op s
      match r.1 with
      | .ok a => (.ok a, { stream := .ok r.2, capabilities := caps }, 1, 1)
      | .error e => (.error e, conn, 1, 1)

/-! ## IMAP blocking line iterator (`connection.rs`) -/

/-- One outcome of `read()` on the blocking socket: `bytes bs` is
`Ok(bs.len())` filling the buffer with `bs` (`bytes []` is `Ok(0)`, i.e.
end-of-file), `ioError` is `Err(_)`. -/
inductive ReadEvent
  | bytes (bs : List Char)
  | ioError
deriving DecidableEq, Repr

/-- Outcome of one `ImapBlockingConnection::next()` call observed against a
finite script of read results: `line l` is `Some(l)`, `outNone` is `None`,
and `stillLooping` means the `loop` consumed the whole script without
returning — the call is still spinning. -/
inductive NextOutcome
  | line (l : List Char)
  | outNone
  | stillLooping
deriving DecidableEq, Repr

/-- Position of the first `\r\n` in a buffer (`result.find(b"\r\n")`). -/
def findCRLF : List Char → Option Nat
  | '\r' :: '\n' :: _ => some 0
  | _ :: rest => (findCRLF rest).map (· + 1)
  | [] => none

/-- The `loop` body of `ImapBlockingConnection::next()` with the stream in
the `Ok` state, run against a finite script of read results.  `result` is
the residual buffer left over after the `drain` of the previous line.
Mirrors the source: `Ok(0) => continue`, `Ok(b)` extends the buffer and
returns the first CRLF-terminated line if one is now present, `Err(_)`
returns `None`. -/
def nextLoop (result : List Char) : List ReadEvent → NextOutcome
  | [] => .stillLooping
  | .bytes bs :: rest =>
    if bs.length = 0 then nextLoop result rest
    else
      let r := result ++ bs
      match findCRLF r with
      | some pos => .line (r.take (pos + 2))
      | none => nextLoop r rest
  | .ioError :: _ => .outNone

/-- `ImapBlockingConnection::next()`: if `conn.stream` is an error, first
try to reconnect; a failed reconnect returns `None`, a successful one (or
an already-`Ok` stream) enters the read loop. -/
def imapBlockingNext (streamOk reconnectOk : Bool) (result : List Char)
    (script : List ReadEvent) : NextOutcome :=
  if streamOk then nextLoop result script
  else if reconnectOk then nextLoop result script
  else .outNone

/-! ## Sieve parser (`sieve.rs`; the `parsec` primitives it uses live in
`melib/src/parsec.rs`, which is not part of the sources under review, and
are modelled from the spec's description: "literal match, literal-map,
alternation, sequence, delimited, separated-list, optional, permutation,
map-result" with the standard semantics of such combinators). -/

/-- Result of running a parser: `done rest v` is `Ok((rest, v))`,
`failed rest` is `Err(rest)`, `panicked` models an out-of-bounds index
panic inside a parser body. -/
inductive PRes (α : Type)
  | done (rest : List Char) (val : α)
  | failed (rest : List Char)
  | panicked
deriving DecidableEq, Repr

/-- `Parser<'a, T>` of `parsec.rs`. -/
def SParser (α : Type) : Type := List Char → PRes α

/-- The whitespace set of `eat_inner`: space, tab, newline, carriage
return. -/
def isSieveWs (c : Char) : Bool :=
  c = ' ' || c = '\t' || c = '\n' || c = '\r'

/-- The control state of the `eat_inner` loop: scanning normally, inside a
`#`-to-end-of-line comment, or inside a `/* ... */` block comment. -/
inductive EatMode
  | norm
  | lineC
  | blockC
deriving DecidableEq, Repr

/-- `eat_inner` of `sieve.rs`, written as its loop's state machine: in
normal mode skip whitespace, enter line-comment mode at `#` and
block-comment mode at `/*`, and stop at anything else; line-comment mode
consumes up to and including the first `\r\n` or `\n` (the pair checked
first, as in the source); block-comment mode consumes up to and including
the first `*/`.  The source scans for `*/` starting AT the opening `/*`,
so the opener's own `*` may serve as the `*` of the closer (input `/*/` is
a complete comment); the model keeps that by entering block-comment mode
at the `*`.  Running out of input in any mode consumes everything. -/
def eatGo : EatMode → List Char → List Char
  | .norm, [] => []
  | .norm, '#' :: rest => eatGo .lineC rest
  | .norm, '/' :: '*' :: rest => eatGo .blockC ('*' :: rest)
  | .norm, c :: rest => if isSieveWs c then eatGo .norm rest else c :: rest
  | .lineC, [] => []
  | .lineC, '\r' :: '\n' :: rest => eatGo .norm rest
  | .lineC, '\n' :: rest => eatGo .norm rest
  | .lineC, _ :: rest => eatGo .lineC rest
  | .blockC, [] => []
  | .blockC, '*' :: '/' :: rest => eatGo .norm rest
  | .blockC, _ :: rest => eatGo .blockC rest

/-- `eat_inner` itself: run the state machine from normal mode. -/
def eatInner (s : List Char) : List Char :=
  eatGo .norm s

/-- `match_literal_anycase(expected)` (modelled from the spec's "literal
match" primitive, with Rust's `eq_ignore_ascii_case` comparison): consume
`expected.len()` characters if they match the literal case-insensitively,
otherwise fail with the whole input. -/
def matchLiteralAnycase (lit : List Char) (input : List Char) : PRes Unit :=
  if lit.length ≤ input.length ∧
      (input.take lit.length).map Char.toLower = lit.map Char.toLower then
    .done (input.drop lit.length) ()
  else .failed input

/-- `eat(parser)` of `sieve.rs`: run `eat_inner`, the parser, then
`eat_inner` again. -/
def eatP {α : Type} (p : SParser α) : SParser α := fun input =>
  match p (eatInner input) with
  | .done rest v => .done (eatInner rest) v
  | .failed rest => .failed rest
  | .panicked => .panicked

/-- `token(literal)` of `sieve.rs`: `map(eat(match_literal_anycase(lit)),
|_| ())`. -/
def tokenP (lit : List Char) : SParser Unit :=
  eatP (matchLiteralAnycase lit)

/-- `delimited(l, p, r)` (modelled from the spec's "delimited" primitive):
run the three parsers in sequence, returning the middle result. -/
def delimitedP {α : Type} (l : SParser Unit) (p : SParser α)
    (r : SParser Unit) : SParser α := fun input =>
  match l input with
  | .done i1 _ =>
    match p i1 with
    | .done i2 v =>
      match r i2 with
      | .done i3 _ => .done i3 v
      | .failed rest => .failed rest
      | .panicked => .panicked
    | .failed rest => .failed rest
    | .panicked => .panicked
  | .failed rest => .failed rest
  | .panicked => .panicked

/-- The break set of `quoted_text`: NUL, CR, LF, double quote, backslash. -/
def isQSpecial (c : Char) : Bool :=
  c = '\x00' || c = '\r' || c = '\n' || c = '"' || c = '\\'

/-- The scanning loop of `parser::string`'s `quoted_text`, carried over the
UNCONSUMED suffix of the quoted-text input.  The three `starts_with` tests
of the source inspect the START of the whole quoted-text input, not the
current offset, so they are constant across iterations: `bump` says whether
one of `\r\n`, `\"`, `\\` begins the input (advance by an extra 2 each
iteration while two characters remain) and `setDq`/`setSl` record which
unescape flags that branch sets.  A `none` result models the
`input.as_bytes()[offset]` panic when the bump lands exactly at the end. -/
def qtLoop (bump setDq setSl : Bool) :
    List Char → Bool → Bool → Option (List Char × Bool × Bool)
  | [], dq, sl => some ([], dq, sl)
  | [c], dq, sl =>
    if isQSpecial c then some ([c], dq, sl)
    else qtLoop bump setDq setSl [] dq sl
  | c :: d :: rest2, dq, sl =>
    if bump then
      match rest2 with
      | [] => none
      | e :: rest3 =>
        if isQSpecial e then some (e :: rest3, dq || setDq, sl || setSl)
        else qtLoop bump setDq setSl rest3 (dq || setDq) (sl || setSl)
    else
      if isQSpecial c then some (c :: d :: rest2, dq, sl)
      else qtLoop bump setDq setSl (d :: rest2) dq sl

/-- `str::replace` for a two-character pattern replaced by one character,
left to right and non-overlapping. -/
def replacePair (a b r : Char) : List Char → List Char
  | [] => []
  | [x] => [x]
  | x :: y :: rest =>
    if x = a ∧ y = b then r :: replacePair a b r rest
    else x :: replacePair a b r (y :: rest)

/-- `quoted_text()` of `parser::string`: run the scan, take the consumed
prefix as the content, and unescape `\"` and/or `\\` in it when the
corresponding flag was ever set. -/
def quotedText : SParser (List Char) := fun input =>
  let setDq := ['\\', '"'].isPrefixOf input
  let setSl := ['\\', '\\'].isPrefixOf input
  let bump := ['\r', '\n'].isPrefixOf input || setDq || setSl
  match qtLoop bump setDq setSl input false false with
  | none => .panicked
  | some (rem, dq, sl) =>
    let offset := input.length - rem.length
    let content := input.take offset
    let content :=
      match dq, sl with
      | false, false => content
      | true, false => replacePair '\\' '"' '"' content
      | false, true => replacePair '\\' '\\' '\\' content
      | true, true =>
        replacePair '\\' '\\' '\\' (replacePair '\\' '"' '"' content)
    .done (input.drop offset) content

/-- `parser::string()` of `sieve.rs`: `delimited(token("\""),
quoted_text(), token("\""))`. -/
def stringP : SParser (List Char) :=
  delimitedP (tokenP ['"']) quotedText (tokenP ['"'])

/-- `is_a(tokens)` (modelled from the spec's primitives with the standard
semantics): consume the longest nonempty run of characters from the set;
fail without consuming if the run is empty. -/
def isA (allowed : List Char) : SParser (List Char) := fun input =>
  let run := input.takeWhile fun c => allowed.contains c
  if run.length = 0 then .failed input
  else .done (input.drop run.length) run

/-- `any_char` (modelled from the spec's primitives): consume one
character; fail at end of input. -/
def anyChar : SParser Char := fun input =>
  match input with
  | [] => .failed []
  | c :: rest => .done rest c

/-- `pred(parser, predicate)` (modelled from the spec's primitives): run
the parser, keep the value if the predicate holds, otherwise fail with the
ORIGINAL input. -/
def predP {α : Type} (p : SParser α) (f : α → Bool) : SParser α :=
  fun input =>
    match p input with
    | .done rest v => if f v then .done rest v else .failed input
    | .failed _ => .failed input
    | .panicked => .panicked

/-- `pair(p, q)` (modelled from the spec's "sequence" primitive): run both
in sequence and pair the results. -/
def pairP {α β : Type} (p : SParser α) (q : SParser β) : SParser (α × β) :=
  fun input =>
    match p input with
    | .done r1 a =>
      match q r1 with
      | .done r2 b => .done r2 (a, b)
      | .failed rest => .failed rest
      | .panicked => .panicked
    | .failed rest => .failed rest
    | .panicked => .panicked

/-- `map_res(p, f)` (modelled from the spec's "map-result" primitive): on
`Err` from `f` the parse fails with the original input. -/
def mapRes {α β : Type} (p : SParser α) (f : α → Except Unit β) :
    SParser β := fun input =>
  match p input with
  | .done rest v =>
    match f v with
    | .ok b => .done rest b
    | .error _ => .failed input
  | .failed rest => .failed rest
  | .panicked => .panicked

/-- Numeric value of a decimal digit string (left to right). -/
def natOfDigits (ds : List Char) : Nat :=
  ds.foldl (fun n c => n * 10 + (c.toNat - '0'.toNat)) 0

/-- `num_s.parse::<u64>()`: `Err` when the value exceeds `u64::MAX`. -/
def parseU64 (ds : List Char) : Except Unit Nat :=
  if natOfDigits ds < 2 ^ 64 then .ok (natOfDigits ds) else .error ()

/-- `parser::number()` of `sieve.rs`:
`map_res(pair(is_a(b"0123456789"), pred(any_char, k|m|g)), ...)`.
The quantifier character is REQUIRED by `pair`; the final `match` has no
arm for a missing quantifier (`_ => return Err(num_s)`).  The
multiplications are `u64` arithmetic (wrapping, modelled by `% 2 ^ 64`). -/
def numberP : SParser Nat :=
  mapRes
    (pairP (isA ['0', '1', '2', '3', '4', '5', '6', '7', '8', '9'])
      (predP anyChar fun c => ['k', 'm', 'g'].contains c.toLower))
    fun x =>
      match parseU64 x.1, x.2.toLower with
      | .ok num, 'k' => .ok (num * 1000 % 2 ^ 64)
      | .ok num, 'm' => .ok (num * 1000000 % 2 ^ 64)
      | .ok num, 'g' => .ok (num * 1000000000 % 2 ^ 64)
      | _, _ => .error ()

/-! ## MIME boundary generation (`attachment_types.rs`) -/

/-- The fixed marker prefix of `ContentType::make_boundary`. -/
def boundaryMarker : List Char := "bzz_bzz__bzz__".toList

/-- The inner `'sub_loop` of `make_boundary`: while the current candidate
occurs in the given part, draw a fresh candidate from the generator (the
oracle `gen` models successive `gen_boundary()` outputs) and clear the
all-clean flag.  The source loop has no bound; `fuel` makes the model
total, with `none` for running out. -/
def fixOnePart (gen : Nat → List Char) :
    Nat → Nat → List Char → List Char → Bool →
      Option (Nat × List Char × Bool)
  | 0, _, _, _, _ => none
  | f + 1, idx, cand, part, flag =>
    if cand <:+: part then fixOnePart gen f (idx + 1) (gen idx) part false
    else some (idx, cand, flag)

/-- One pass of the outer `'loo` loop over all parts. -/
def fixAllParts (gen : Nat → List Char) (f : Nat) :
    Nat → List Char → List (List Char) → Bool →
      Option (Nat × List Char × Bool)
  | idx, cand, [], flag => some (idx, cand, flag)
  | idx, cand, p :: rest, flag =>
    match fixOnePart gen f idx cand p flag with
    | none => none
    | some (idx', cand', flag') => fixAllParts gen f idx' cand' rest flag'

/-- The outer `'loo` loop of `make_boundary`: repeat full passes until one
pass finds the candidate in no part; `loop_counter` starts at 4096 and the
`panic!("Can't generate randomness...")` on exhaustion is modelled as
`none`. -/
def makeBoundaryLoop (gen : Nat → List Char) (parts : List (List Char)) :
    Nat → Nat → Nat → List Char → Option (List Char)
  | 0, _, _, _ => none
  | f + 1, counter, idx, cand =>
    match fixAllParts gen (f + 1) idx cand parts true with
    | none => none
    | some (idx', cand', flag) =>
      if flag then some cand'
      else if counter - 1 = 0 then none
      else makeBoundaryLoop gen parts f (counter - 1) idx' cand'

/-- `ContentType::make_boundary(parts)`: start from `gen_boundary()`, run
the rejection loop, then return `"bzz_bzz__bzz__" + candidate` truncated
to 70 characters.

Modelled from the spec: `gen_boundary()` lives in
`melib/src/email/compose/random.rs`, which is not part of the sources
under review; it is modelled as an oracle `gen : Nat → List Char` of
successive random candidates (the spec bounds the final boundary at 70
characters with the fixed marker prefix, so candidates are short random
strings — the theorems assume each candidate has at most
70 − 14 = 56 characters). -/
def makeBoundary (gen : Nat → List Char) (parts : List (List Char))
    (fuel : Nat) : Option (List Char) :=
  (makeBoundaryLoop gen parts fuel 4096 1 (gen 0)).map
    fun r => (boundaryMarker ++ r).take 70

/-! ## Theorems: Maildir claims -/

/-- C4: for every set of Maildir flags, encoding it as a sorted flag-letter
suffix after `":2,"` (exactly as `set_flag` writes it) and parsing the
resulting file name with `fetch_flags` yields the same flag set back. -/
theorem maildir_flag_roundtrip :
    ∀ d f p r s t : Bool,
      fetchFlags ("1234.abc.host:2,".toList ++
          encodeFlags ⟨p, r, s, t, d, f⟩) =
        some ⟨p, r, s, t, d, f⟩ := by
  decide

/-- C10 counterexample: the file name `a:2,x,` contains `":2,"` followed by
`'x'`, a character outside `{D,F,P,R,S,T}`, yet `fetch_flags` does not
panic: the reverse scan stops at the trailing comma and returns the empty
flag set. -/
theorem fetchFlags_no_panic_on_bad_char_before_comma :
    ((":2,".toList ++ ['x']) <:+: "a:2,x,".toList) ∧
      fetchFlags "a:2,x,".toList = some {} := by
  constructor
  · decide
  · decide

/-- Helper for C10: the reverse scan panics exactly when a character before
the first comma (of the reversed name) is outside the six flag letters. -/
theorem scanRevFlags_eq_none_iff (l : List Char) (fl : MFlag) :
    scanRevFlags l fl = none ↔
      ∃ c ∈ l.takeWhile (· ≠ ','), c ∉ ['D', 'F', 'P', 'R', 'S', 'T'] := by
  induction l generalizing fl with
  | nil => simp [scanRevFlags]
  | cons c rest ih =>
    by_cases hc : c = ','
    · subst hc
      simp [scanRevFlags, List.takeWhile]
    · have htw : (c :: rest).takeWhile (· ≠ ',') =
          c :: rest.takeWhile (· ≠ ',') := by
        simp [hc]
      rw [htw]
      by_cases hD : c = 'D'
      · subst hD
        simp [scanRevFlags, ih, List.exists_mem_cons_iff]
      · by_cases hF : c = 'F'
        · subst hF
          simp [scanRevFlags, ih, List.exists_mem_cons_iff]
        · by_cases hP : c = 'P'
          · subst hP
            simp [scanRevFlags, ih, List.exists_mem_cons_iff]
          · by_cases hR : c = 'R'
            · subst hR
              simp [scanRevFlags, ih, List.exists_mem_cons_iff]
            · by_cases hS : c = 'S'
              · subst hS
                simp [scanRevFlags, ih, List.exists_mem_cons_iff]
              · by_cases hT : c = 'T'
                · subst hT
                  simp [scanRevFlags, ih, List.exists_mem_cons_iff]
                · have hnone : scanRevFlags (c :: rest) fl = none := by
                    simp [scanRevFlags, hc, hD, hF, hP, hR, hS, hT]
                  rw [hnone]
                  exact iff_of_true rfl
                    ⟨c, List.mem_cons_self _ _,
                      by simp [hD, hF, hP, hR, hS, hT]⟩

/-- C10 amended: `fetch_flags` panics exactly on file names that contain
`":2,"` and have a character outside `{D,F,P,R,S,T}` strictly after the
last comma; characters between `":2,"` and a later comma are never
examined, so a bad character there does not panic. -/
theorem fetchFlags_panic_iff (filename : List Char) :
    fetchFlags filename = none ↔
      (([':', '2', ','] <:+: filename) ∧
        ∃ c ∈ filename.reverse.takeWhile (· ≠ ','),
          c ∉ ['D', 'F', 'P', 'R', 'S', 'T']) := by
  unfold fetchFlags
  by_cases h : [':', '2', ','] <:+: filename
  · simp [h, scanRevFlags_eq_none_iff]
  · simp [h]

/-- C2: `fetch_body` as written returns exactly what `fetch_headers`
returns (the two method bodies are identical), and on a concrete message
it yields the header prefix, not the body bytes after the header
terminator that the spec requires. -/
theorem fetchBody_returns_headers :
    (∀ raw, fetchBody raw = fetchHeaders raw) ∧
      fetchBody "A: B\r\n\r\nBODY".toList = some "A: B".toList ∧
      specFetchBody "A: B\r\n\r\nBODY".toList = some "BODY".toList ∧
      fetchBody "A: B\r\n\r\nBODY".toList ≠
        specFetchBody "A: B\r\n\r\nBODY".toList :=
  ⟨fun _ => rfl, by decide, by decide, by decide⟩

/-- C3 counterexample: toggling Seen on `1234.abc.host:2,S` does rename the
file to `1234.abc.host:2,` (empty flag suffix), but the emitted event list
is empty — no `Rename(old_hash, new_hash)` (or any other) event is
produced, refuting the claimed event emission. -/
theorem setFlag_toggle_seen_no_event :
    setFlag "1234.abc.host:2,S".toList { seen := true } =
      .renamed "1234.abc.host:2,".toList [] := by
  decide

/-- C3 amended: toggling Seen on `1234.abc.host:2,S` renames the file in
place to `1234.abc.host:2,` and replaces the envelope's operation token
with one holding the new path; no refresh event of any kind is emitted by
`set_flag` (for any path and flag). -/
theorem setFlag_toggle_seen_renames_in_place :
    setFlag "1234.abc.host:2,S".toList { seen := true } =
        .renamed "1234.abc.host:2,".toList [] ∧
      ∀ path f, setFlagEvents (setFlag path f) = [] := by
  refine ⟨by decide, fun path f => ?_⟩
  unfold setFlag
  rcases rfindPat path [':', '2', ','] with _ | i
  · rfl
  · rcases fetchFlags (fileNameOf path) with _ | flags
    · rfl
    · rfl

/-! ## Theorems: IMAP claims -/

/-- C1 counterexample: in scenario S4 the code sends `M0 STARTTLS`,
`M0 LOGIN …`, `M1 NOOP` — the tag `M0` is used twice (the raw STARTTLS
write does not increment `cmd_id`) — and `send_command("NOOP")` returns
tag id 1, not 2, so the outgoing tags are not strictly increasing and the
claimed scenario trace is wrong. -/
theorem imap_tag_scenario_counterexample :
    scenarioS4.2 = 1 ∧ scenarioS4.2 ≠ 2 ∧
      scenarioS4.1.map Prod.fst = [0, 0, 1] ∧
      ¬ List.Chain' (· < ·) (scenarioS4.1.map Prod.fst) := by
  refine ⟨rfl, by decide, rfl, ?_⟩
  have h : scenarioS4.1.map Prod.fst = [0, 0, 1] := rfl
  rw [h]
  simp [List.chain'_cons]

/-- C1 amended: every sequence of `ImapStream::send_command` calls gets
consecutive, strictly increasing tags starting at the stream's current
`cmd_id`; but `new_connection` writes the `M0 STARTTLS` line raw without
incrementing `cmd_id`, so scenario S4 produces the wire trace
`M0 STARTTLS`, `M0 LOGIN`, `M1 NOOP` and `send_command("NOOP")` returns
tag id 1. -/
theorem imap_tags_consecutive :
    (∀ (s : ImapStreamS) (cmds : List String),
        (sendAll s cmds).2.map Prod.fst = List.range' s.cmd_id cmds.length) ∧
      scenarioS4.1.map Prod.fst = [0, 0, 1] ∧ scenarioS4.2 = 1 := by
  refine ⟨fun s cmds => ?_, rfl, rfl⟩
  induction cmds generalizing s with
  | nil => rfl
  | cons c cs ih =>
    simp [sendAll, ImapStreamS.sendCommand, List.range', ih]

/-- C5: any `ImapConnection` operation invoked in the error state makes
exactly one fresh connection attempt; if that attempt fails its error is
surfaced and the operation never runs; if it succeeds the operation runs
exactly once on the new stream and its result (success or error) is
surfaced unchanged — no further retry in either case. -/
theorem imap_error_state_one_reconnect {ε α : Type}
    (conn : ImapConnectionM ε)
    (newConn : Except ε (List String × ImapStreamS))
    (op : ImapStreamS → Except ε α × ImapStreamS)
    (e0 : ε) (hErr : conn.stream = .error e0) :
    (opWithReconnect conn newConn op).2.2.1 = 1 ∧
      (∀ e, newConn = .error e →
        (opWithReconnect conn newConn op).1 = .error e ∧
          (opWithReconnect conn newConn op).2.2.2 = 0 ∧
          (opWithReconnect conn newConn op).2.1 = conn) ∧
      (∀ caps s, newConn = .ok (caps, s) →
        (opWithReconnect conn newConn op).2.2.2 = 1 ∧
          (opWithReconnect conn newConn op).1 = (op s).1) := by
  refine ⟨?_, fun e he => ?_, fun caps s hcs => ?_⟩
  · rcases hn : newConn with e | ⟨caps, s⟩
    · simp [opWithReconnect, hErr, hn]
    · rcases hr : (op s).1 with e1 | a1 <;>
        simp [opWithReconnect, hErr, hn, hr]
  · subst he
    simp [opWithReconnect, hErr]
  · subst hcs
    rcases hr : (op s).1 with e1 | a1 <;> simp [opWithReconnect, hErr, hr]

/-- C5 witness: the theorem applied to a concrete offline connection, a
successful reconnect, and a concrete operation. -/
theorem imap_error_state_one_reconnect_witness :
    (opWithReconnect (ε := String) (α := Nat)
        ⟨.error "Offline", []⟩ (.ok ([], ⟨0⟩))
        (fun s => (.ok 7, s))).2.2.1 = 1 :=
  (imap_error_state_one_reconnect ⟨.error "Offline", []⟩ (.ok ([], ⟨0⟩))
    (fun s => (.ok 7, s)) "Offline" rfl).1

/-- C6: a 0-byte read (`Ok(0)`, i.e. end-of-file on the blocking socket)
makes `next()` `continue` — against any number of consecutive end-of-file
reads the loop just keeps spinning and never returns, so `next()` does NOT
terminate with `None` at end-of-file as claimed.  An I/O error does return
`None`, a failed reconnect returns `None`, and an arriving CRLF line is
returned. -/
theorem imap_blocking_next_eof_spins :
    (∀ (n : Nat) (result : List Char),
        nextLoop result (List.replicate n (.bytes [])) = .stillLooping) ∧
      imapBlockingNext true true [] [.ioError] = .outNone ∧
      imapBlockingNext false false [] [.bytes "x\r\n".toList] = .outNone ∧
      imapBlockingNext true true [] [.bytes "* OK hi\r\n".toList] =
        .line "* OK hi\r\n".toList := by
  refine ⟨fun n result => ?_, by decide, by decide, by decide⟩
  induction n with
  | zero => rfl
  | succ n ih => simpa [List.replicate, nextLoop] using ih

/-! ## Theorems: sieve parser claims -/

/-- C7: the escape handling of the sieve quoted-string parser is positional,
not position-independent.  The source's escape tests call
`input.starts_with(..)` on the WHOLE quoted-text input instead of at the
current offset, so `"a\"b"` — where the `\"` escape sits mid-string — is
rejected: the scan breaks at the backslash, leaves `\"b"` unconsumed and
the closing-quote token fails.  The escape does work when the quoted text
BEGINS with it: `"\"abc"` parses to `"abc`. -/
theorem sieve_string_escape_positional :
    stringP ['"', 'a', '\\', '"', 'b', '"'] = .failed ['\\', '"', 'b', '"'] ∧
      stringP ['"', '\\', '"', 'a', 'b', 'c', '"'] =
        .done [] ['"', 'a', 'b', 'c'] :=
  ⟨by decide, by decide⟩

/-- C8 counterexample: a bare decimal integer without a `K`/`M`/`G`
quantifier is rejected by the sieve number parser (the quantifier is a
mandatory `pair` component), refuting "returns the integer value of n when
no suffix is present"; with a suffix the multipliers do apply. -/
theorem sieve_number_bare_integer_rejected :
    numberP ['5', '0', '0'] = .failed [] ∧
      numberP "500K".toList = .done [] 500000 ∧
      numberP "1k".toList = .done [] 1000 := by
  decide

/-- Helper for C8: `takeWhile` runs through a block that wholly satisfies
the predicate. -/
theorem takeWhile_append_all {α : Type} (p : α → Bool) (l1 l2 : List α)
    (h : ∀ c ∈ l1, p c = true) :
    (l1 ++ l2).takeWhile p = l1 ++ l2.takeWhile p := by
  induction l1 with
  | nil => simp
  | cons c r ih =>
    simp only [List.cons_append, List.takeWhile_cons,
      h c (List.mem_cons_self _ _), if_pos]
    rw [ih fun c' hc' => h c' (List.mem_cons_of_mem _ hc')]

/-- C8 amended: the sieve number parser REQUIRES a `K`/`M`/`G` quantifier
(case-insensitive).  For every nonempty digit string whose value fits in
`u64`: without a suffix the parse fails (the digits are consumed, then the
mandatory quantifier character is missing); with suffix `K`/`k`, `M`/`m`,
`G`/`g` it returns the value multiplied by 1000, 10^6, 10^9 respectively
(when the product does not overflow `u64`). -/
theorem sieve_number_suffix_mandatory (ds : List Char) (q : Char)
    (hne : ds ≠ [])
    (hdig : ∀ c ∈ ds,
      (['0', '1', '2', '3', '4', '5', '6', '7', '8', '9'].contains c) = true)
    (hov : natOfDigits ds < 2 ^ 64) :
    numberP ds = .failed [] ∧
      ((q = 'k' ∨ q = 'K') → natOfDigits ds * 1000 < 2 ^ 64 →
        numberP (ds ++ [q]) = .done [] (natOfDigits ds * 1000)) ∧
      ((q = 'm' ∨ q = 'M') → natOfDigits ds * 1000000 < 2 ^ 64 →
        numberP (ds ++ [q]) = .done [] (natOfDigits ds * 1000000)) ∧
      ((q = 'g' ∨ q = 'G') → natOfDigits ds * 1000000000 < 2 ^ 64 →
        numberP (ds ++ [q]) = .done [] (natOfDigits ds * 1000000000)) := by
  have hlen : ¬ ds.length = 0 := fun h => hne (List.length_eq_zero.mp h)
  have hrun0 : ds.takeWhile
      (fun c => ['0', '1', '2', '3', '4', '5', '6', '7', '8', '9'].contains c) =
        ds := by
    have h := takeWhile_append_all
      (fun c => ['0', '1', '2', '3', '4', '5', '6', '7', '8', '9'].contains c)
      ds [] hdig
    simpa using h
  have hrunq : ∀ hqd :
      (['0', '1', '2', '3', '4', '5', '6', '7', '8', '9'].contains q) = false,
      (ds ++ [q]).takeWhile
        (fun c =>
          ['0', '1', '2', '3', '4', '5', '6', '7', '8', '9'].contains c) =
        ds := by
    intro hqd
    rw [takeWhile_append_all _ ds [q] hdig]
    rw [List.takeWhile_cons, hqd]
    simp
  refine ⟨?_, fun hq hmul => ?_, fun hq hmul => ?_, fun hq hmul => ?_⟩
  · simp only [numberP, mapRes, pairP, isA, predP, anyChar]
    rw [hrun0]
    simp [hlen, List.drop_length]
  · have hqd : (['0', '1', '2', '3', '4', '5', '6', '7', '8', '9'].contains q)
        = false := by rcases hq with h | h <;> subst h <;> decide
    have hqlow : q.toLower = 'k' := by
      rcases hq with h | h <;> subst h <;> decide
    simp only [numberP, mapRes, pairP, isA, predP, anyChar]
    rw [hrunq hqd, if_neg hlen, List.drop_left]
    have hov2 : natOfDigits ds < 18446744073709551616 := hov
    have hmul2 : natOfDigits ds * 1000 < 18446744073709551616 := hmul
    simp [hqlow, parseU64, hov2, Nat.mod_eq_of_lt hmul2]
  · have hqd : (['0', '1', '2', '3', '4', '5', '6', '7', '8', '9'].contains q)
        = false := by rcases hq with h | h <;> subst h <;> decide
    have hqlow : q.toLower = 'm' := by
      rcases hq with h | h <;> subst h <;> decide
    simp only [numberP, mapRes, pairP, isA, predP, anyChar]
    rw [hrunq hqd, if_neg hlen, List.drop_left]
    have hov2 : natOfDigits ds < 18446744073709551616 := hov
    have hmul2 : natOfDigits ds * 1000000 < 18446744073709551616 := hmul
    simp [hqlow, parseU64, hov2, Nat.mod_eq_of_lt hmul2]
  · have hqd : (['0', '1', '2', '3', '4', '5', '6', '7', '8', '9'].contains q)
        = false := by rcases hq with h | h <;> subst h <;> decide
    have hqlow : q.toLower = 'g' := by
      rcases hq with h | h <;> subst h <;> decide
    simp only [numberP, mapRes, pairP, isA, predP, anyChar]
    rw [hrunq hqd, if_neg hlen, List.drop_left]
    have hov2 : natOfDigits ds < 18446744073709551616 := hov
    have hmul2 : natOfDigits ds * 1000000000 < 18446744073709551616 := hmul
    simp [hqlow, parseU64, hov2, Nat.mod_eq_of_lt hmul2]

/-- C8 witness: the amended theorem applied at `500` and `500K`. -/
theorem sieve_number_suffix_mandatory_witness :
    numberP ['5', '0', '0'] = .failed [] ∧
      numberP ['5', '0', '0', 'K'] = .done [] 500000 := by
  have h := sieve_number_suffix_mandatory ['5', '0', '0'] 'K'
    (by decide) (by decide) (by decide)
  exact ⟨h.1, h.2.1 (Or.inr rfl) (by decide)⟩

/-! ## Theorems: MIME boundary claim -/

/-- Helper for C9: a successful `'sub_loop` run leaves a candidate that
does not occur in the part; if the all-clean flag survives, nothing was
regenerated; and any candidate it produces is either the one it was given
or drawn from the generator. -/
theorem fixOnePart_some (gen : Nat → List Char) :
    ∀ (f idx : Nat) (cand part : List Char) (flag : Bool) (idx' : Nat)
      (cand' : List Char) (flag' : Bool),
      fixOnePart gen f idx cand part flag = some (idx', cand', flag') →
      ¬ (cand' <:+: part) ∧
        (flag' = true → flag = true ∧ cand' = cand) ∧
        (cand' = cand ∨ ∃ k, cand' = gen k) := by
  intro f
  induction f with
  | zero =>
    intro idx cand part flag idx' cand' flag' h
    simp [fixOnePart] at h
  | succ f ih =>
    intro idx cand part flag idx' cand' flag' h
    rw [fixOnePart] at h
    by_cases hin : cand <:+: part
    · rw [if_pos hin] at h
      obtain ⟨h1, h2, h3⟩ := ih _ _ _ _ _ _ _ h
      refine ⟨h1, fun hf => absurd (h2 hf).1 (by simp), ?_⟩
      rcases h3 with h | ⟨k, hk⟩
      · exact Or.inr ⟨idx, h⟩
      · exact Or.inr ⟨k, hk⟩
    · rw [if_neg hin] at h
      obtain ⟨hi, hc, hf⟩ : idx = idx' ∧ cand = cand' ∧ flag = flag' := by
        simpa using h
      subst hi; subst hc; subst hf
      exact ⟨hin, fun hf => ⟨hf, rfl⟩, Or.inl rfl⟩

/-- Helper for C9: a full pass that ends with the all-clean flag still set
kept the candidate it started with and found it in no part. -/
theorem fixAllParts_final_true (gen : Nat → List Char) :
    ∀ (parts : List (List Char)) (f idx : Nat) (cand : List Char)
      (flag : Bool) (idx' : Nat) (cand' : List Char),
      fixAllParts gen f idx cand parts flag = some (idx', cand', true) →
      cand' = cand ∧ flag = true ∧ ∀ p ∈ parts, ¬ (cand' <:+: p) := by
  intro parts
  induction parts with
  | nil =>
    intro f idx cand flag idx' cand' h
    obtain ⟨hi, hc, hf⟩ : idx = idx' ∧ cand = cand' ∧ flag = true := by
      simpa [fixAllParts] using h
    exact ⟨hc.symm, hf, by simp⟩
  | cons p rest ih =>
    intro f idx cand flag idx' cand' h
    rw [fixAllParts] at h
    rcases ho : fixOnePart gen f idx cand p flag with _ | ⟨i1, c1, f1⟩
    · rw [ho] at h; exact absurd h (by simp)
    · rw [ho] at h
      obtain ⟨hc', hf1, hrest⟩ := ih _ _ _ _ _ _ h
      obtain ⟨hnin, himp, _⟩ := fixOnePart_some gen _ _ _ _ _ _ _ _ ho
      obtain ⟨hflag, hc1⟩ := himp hf1
      refine ⟨by rw [hc', hc1], hflag, fun p' hp' => ?_⟩
      rcases List.mem_cons.mp hp' with h' | h'
      · subst h'
        rw [hc']
        exact hnin
      · exact hrest p' h'

/-- Helper for C9: any candidate a pass hands on is the incoming one or a
generator output. -/
theorem fixAllParts_cand_origin (gen : Nat → List Char) :
    ∀ (parts : List (List Char)) (f idx : Nat) (cand : List Char)
      (flag : Bool) (idx' : Nat) (cand' : List Char) (flag' : Bool),
      fixAllParts gen f idx cand parts flag = some (idx', cand', flag') →
      cand' = cand ∨ ∃ k, cand' = gen k := by
  intro parts
  induction parts with
  | nil =>
    intro f idx cand flag idx' cand' flag' h
    obtain ⟨hi, hc, hf⟩ : idx = idx' ∧ cand = cand' ∧ flag = flag' := by
      simpa [fixAllParts] using h
    exact Or.inl hc.symm
  | cons p rest ih =>
    intro f idx cand flag idx' cand' flag' h
    rw [fixAllParts] at h
    rcases ho : fixOnePart gen f idx cand p flag with _ | ⟨i1, c1, f1⟩
    · rw [ho] at h; exact absurd h (by simp)
    · rw [ho] at h
      obtain ⟨_, _, horig⟩ := fixOnePart_some gen _ _ _ _ _ _ _ _ ho
      rcases ih _ _ _ _ _ _ _ h with h' | ⟨k, hk⟩
      · subst h'
        exact horig
      · exact Or.inr ⟨k, hk⟩

/-- Helper for C9: a successful rejection loop returns a candidate that is
short (it came from the generator or the initial draw) and occurs in no
part. -/
theorem makeBoundaryLoop_some (gen : Nat → List Char)
    (parts : List (List Char)) (hgen : ∀ i, (gen i).length ≤ 56) :
    ∀ (f counter idx : Nat) (cand r : List Char), cand.length ≤ 56 →
      makeBoundaryLoop gen parts f counter idx cand = some r →
      r.length ≤ 56 ∧ ∀ p ∈ parts, ¬ (r <:+: p) := by
  intro f
  induction f with
  | zero =>
    intro counter idx cand r _ h
    simp [makeBoundaryLoop] at h
  | succ f ih =>
    intro counter idx cand r hcand h
    rw [makeBoundaryLoop] at h
    rcases ho : fixAllParts gen (f + 1) idx cand parts true
        with _ | ⟨i1, c1, f1⟩
    · rw [ho] at h; exact absurd h (by simp)
    · rw [ho] at h
      rcases f1 with _ | _
      · have h2 : (if counter - 1 = 0 then none
            else makeBoundaryLoop gen parts f (counter - 1) i1 c1) = some r := h
        by_cases hcnt : counter - 1 = 0
        · rw [if_pos hcnt] at h2; exact absurd h2 (by simp)
        · rw [if_neg hcnt] at h2
          have hc1 : c1.length ≤ 56 := by
            rcases fixAllParts_cand_origin gen _ _ _ _ _ _ _ _ ho
                with h' | ⟨k, hk⟩
            · rw [h']; exact hcand
            · rw [hk]; exact hgen k
          exact ih _ _ _ _ hc1 h2
      · have h2 : some c1 = some r := h
        obtain hr : c1 = r := by simpa using h2
        obtain ⟨hcc, _, hclean⟩ := fixAllParts_final_true gen _ _ _ _ _ _ _ ho
        subst hr
        exact ⟨by rw [hcc]; exact hcand, hclean⟩

/-- C9: whenever `make_boundary` returns a boundary, it is at most 70
characters long, begins with the fixed marker `bzz_bzz__bzz__`, and does
not occur as a substring of the raw bytes of any of the given parts.  The
rejection loop re-scans every part after each regeneration, so the
returned candidate occurs in no part; the marker-prefixed result then
cannot occur in a part either, because the candidate is one of its
substrings.  (`gen` is the oracle of `gen_boundary()` outputs; its
candidates are assumed to be at most 70 − 14 = 56 characters, so the final
truncation to 70 never cuts into the candidate.) -/
theorem make_boundary_spec (gen : Nat → List Char)
    (parts : List (List Char)) (fuel : Nat) (b : List Char)
    (hgen : ∀ i, (gen i).length ≤ 56)
    (hb : makeBoundary gen parts fuel = some b) :
    b.length ≤ 70 ∧ boundaryMarker <+: b ∧
      ∀ p ∈ parts, ¬ (b <:+: p) := by
  unfold makeBoundary at hb
  rcases hr : makeBoundaryLoop gen parts fuel 4096 1 (gen 0) with _ | r
  · rw [hr] at hb; exact absurd hb (by simp)
  · rw [hr] at hb
    obtain hb' : (boundaryMarker ++ r).take 70 = b := by simpa using hb
    obtain ⟨hrlen, hclean⟩ :=
      makeBoundaryLoop_some gen parts hgen fuel 4096 1 (gen 0) r (hgen 0) hr
    have hmlen : boundaryMarker.length = 14 := by decide
    have hlen : (boundaryMarker ++ r).length ≤ 70 := by
      rw [List.length_append, hmlen]
      omega
    have htake : (boundaryMarker ++ r).take 70 = boundaryMarker ++ r :=
      List.take_of_length_le hlen
    rw [htake] at hb'
    subst hb'
    refine ⟨hlen, ⟨r, rfl⟩, fun p hp hinf => ?_⟩
    have hrsub : r <:+: boundaryMarker ++ r := ⟨boundaryMarker, [], by simp⟩
    exact hclean p hp (hrsub.trans hinf)

/-- C9 witness: the theorem applied to a concrete generator (constant
candidate `X`), one part `ab`, and enough fuel. -/
theorem make_boundary_spec_witness :
    (boundaryMarker ++ ['X']).length ≤ 70 ∧
      boundaryMarker <+: boundaryMarker ++ ['X'] ∧
      ∀ p ∈ [['a', 'b']], ¬ (boundaryMarker ++ ['X'] <:+: p) :=
  make_boundary_spec (fun _ => ['X']) [['a', 'b']] 2 (boundaryMarker ++ ['X'])
    (fun _ => by
      show ([('X' : Char)]).length ≤ 56
      decide)
    (by decide)
